import Mathlib

/-!
Verification of the nbexplorer core (a client-side notebook/script browser).

The development shallowly embeds the program's pure logic:
* `escapeHtml` and the regex-based markdown converter `renderMarkdown`;
* the notebook renderers `renderNotebookPreview` and `renderFullNotebook`
  together with the per-output renderer `renderOutput`;
* the path canonicalizer `normalizeFilePath` and the folder-tree builder
  `buildTree` over a model `JsVal` of the dynamic tree nodes
  (plain objects with ordered properties, and file arrays that may also
  carry properties, as JavaScript arrays do);
* the breadcrumb-jump logic of `updateBreadcrumbs` and the modal carousel
  state of `openNotebookModal` / `updateNavigationButtons`.

JavaScript strings are modelled as Lean `String` (operated on through their
`List Char` data where the source works character-wise), and absent/null
values as `Option` or a dedicated `undef` constructor.  Places where the
source can throw are modelled as `Except`: `node.files.push` on a plain
object in the tree builder, and - in a second, dynamically typed embedding
of the renderers over parsed JSON values (`JsonV`) - the `TypeError`s the
renderers raise on parseable notebooks whose fields have unexpected
dynamic types (a null cell, a truthy non-string source, a truthy non-array
`cells` or `outputs` value).  The first, typed embedding (`Notebook`,
`Cell`, `JsStr`) covers the well-formed-cell scope of the rendering claims;
the dynamic one settles totality.
-/

/-- The apostrophe character (U+0027), kept as a named constant. -/
def apostC : Char := Char.ofNat 39

/-- The backtick character (U+0060), kept as a named constant. -/
def btickC : Char := Char.ofNat 96

/-! ## `escapeHtml`

Source: `function escapeHtml(s) { return s.replace(/[&<>"']/g, m => ({...}[m])); }`.
A global single-character-class replace is a per-character map. -/

/-- The replacement table of `escapeHtml` for one character. -/
def escChar (c : Char) : List Char :=
  if c = '&' then "&amp;".data
  else if c = '<' then "&lt;".data
  else if c = '>' then "&gt;".data
  else if c = '"' then "&quot;".data
  else if c = apostC then "&#39;".data
  else [c]

/-- `escapeHtml(s)`: HTML-escape ampersand, angle brackets, double and single quote. -/
def escapeHtml (s : String) : String :=
  String.mk (s.data.flatMap escChar)

/-! ## The markdown converter `renderMarkdown`

Source applies, in order, the global replaces
`^### (.*$)` / `^## (.*$)` / `^# (.*$)` (multiline), `\*\*(.*?)\*\*`,
`\*(.*?)\*`, `` `([^`]+)` `` and `\n\n`, then wraps the result in `<p>...</p>`;
a falsy input returns the empty string. -/

/-- Split a character list at every occurrence of `sep` (like `String.split`
on one character; used for the line-anchored header regexes). -/
def splitOnChar (sep : Char) : List Char → List (List Char)
  | [] => [[]]
  | c :: rest =>
    if c = sep then [] :: splitOnChar sep rest
    else
      match splitOnChar sep rest with
      | [] => [[c]]
      | l :: ls => (c :: l) :: ls

/-- One line of a header pass: `^<pre>(.*$)` is replaced by `<opn>$1<cls>`. -/
def headerLine (pre opn cls l : List Char) : List Char :=
  if pre.isPrefixOf l then opn ++ l.drop pre.length ++ cls else l

/-- One multiline header replace: apply `headerLine` to every line. -/
def headerPass (pre opn cls l : List Char) : List Char :=
  List.intercalate ['\n'] ((splitOnChar '\n' l).map (headerLine pre opn cls))

/-- Lookahead for the bold rule: find the earliest closing `**` with the
(lazy, newline-free) captured content before it. -/
def findCloseB : List Char → Option (List Char × List Char)
  | [] => none
  | c :: rest =>
    if c = '*' ∧ rest.head? = some '*' then some ([], rest.tail)
    else if c = '\n' then none
    else (findCloseB rest).map (fun p => (c :: p.1, p.2))

theorem findCloseB_length {l co r} (h : findCloseB l = some (co, r)) :
    r.length < l.length := by
  induction l generalizing co r with
  | nil => simp [findCloseB] at h
  | cons c rest ih =>
    simp only [findCloseB] at h
    split at h
    · rename_i hc
      obtain ⟨-, h2⟩ := Prod.mk.injEq .. ▸ (Option.some.injEq .. ▸ h)
      cases rest with
      | nil => simp at hc
      | cons d rest2 => simp_all; omega
    · split at h
      · exact absurd h (by simp)
      · cases hf : findCloseB rest with
        | none => rw [hf] at h; simp at h
        | some p =>
          rw [hf] at h
          obtain ⟨p1, p2⟩ := p
          simp only [Option.map_some', Option.some.injEq, Prod.mk.injEq] at h
          have := ih hf
          simp [← h.2]
          omega

/-- The global replace `\*\*(.*?)\*\*` → `<strong>$1</strong>`. -/
def boldAux (l : List Char) : List Char :=
  match l with
  | [] => []
  | c :: rest =>
    if c = '*' ∧ rest.head? = some '*' then
      match h : findCloseB rest.tail with
      | some p => "<strong>".data ++ p.1 ++ "</strong>".data ++ boldAux p.2
      | none => c :: boldAux rest
    else c :: boldAux rest
termination_by l.length
decreasing_by
  · have h1 := findCloseB_length h
    have h2 : rest.tail.length ≤ rest.length := by
      cases rest <;> simp
    simp; omega
  · simp
  · simp

/-- Lookahead for the italic rule: earliest closing `*`. -/
def findCloseI : List Char → Option (List Char × List Char)
  | [] => none
  | c :: rest =>
    if c = '*' then some ([], rest)
    else if c = '\n' then none
    else (findCloseI rest).map (fun p => (c :: p.1, p.2))

theorem findCloseI_length {l co r} (h : findCloseI l = some (co, r)) :
    r.length < l.length := by
  induction l generalizing co r with
  | nil => simp [findCloseI] at h
  | cons c rest ih =>
    simp only [findCloseI] at h
    split at h
    · simp_all
    · split at h
      · exact absurd h (by simp)
      · cases hf : findCloseI rest with
        | none => rw [hf] at h; simp at h
        | some p =>
          rw [hf] at h
          obtain ⟨p1, p2⟩ := p
          simp only [Option.map_some', Option.some.injEq, Prod.mk.injEq] at h
          have := ih hf
          simp [← h.2]
          omega

/-- The global replace `\*(.*?)\*` → `<em>$1</em>`. -/
def italAux (l : List Char) : List Char :=
  match l with
  | [] => []
  | c :: rest =>
    if c = '*' then
      match h : findCloseI rest with
      | some p => "<em>".data ++ p.1 ++ "</em>".data ++ italAux p.2
      | none => c :: italAux rest
    else c :: italAux rest
termination_by l.length
decreasing_by
  · have := findCloseI_length h
    simp; omega
  · simp
  · simp

/-- Scan for the closing backtick of an inline code span. -/
def scanTick : List Char → Option (List Char × List Char)
  | [] => none
  | c :: rest =>
    if c = btickC then some ([], rest)
    else (scanTick rest).map (fun p => (c :: p.1, p.2))

theorem scanTick_length {l co r} (h : scanTick l = some (co, r)) :
    r.length < l.length := by
  induction l generalizing co r with
  | nil => simp [scanTick] at h
  | cons c rest ih =>
    simp only [scanTick] at h
    split at h
    · simp_all
    · cases hf : scanTick rest with
      | none => rw [hf] at h; simp at h
      | some p =>
        rw [hf] at h
        obtain ⟨p1, p2⟩ := p
        simp only [Option.map_some', Option.some.injEq, Prod.mk.injEq] at h
        have := ih hf
        simp [← h.2]
        omega

/-- Lookahead for a code span: the content must be one or more
non-backtick characters followed by the closing backtick. -/
def findCloseC : List Char → Option (List Char × List Char)
  | [] => none
  | c :: rest =>
    if c = btickC then none
    else (scanTick rest).map (fun p => (c :: p.1, p.2))

theorem findCloseC_length {l co r} (h : findCloseC l = some (co, r)) :
    r.length < l.length := by
  cases l with
  | nil => simp [findCloseC] at h
  | cons c rest =>
    simp only [findCloseC] at h
    split at h
    · simp at h
    · cases hf : scanTick rest with
      | none => rw [hf] at h; simp at h
      | some p =>
        rw [hf] at h
        obtain ⟨p1, p2⟩ := p
        simp only [Option.map_some', Option.some.injEq, Prod.mk.injEq] at h
        have := scanTick_length hf
        simp [← h.2]
        omega

/-- The global replace of one-or-more non-backtick characters between
backticks with an inline `<code>` element. -/
def codeSpanAux (l : List Char) : List Char :=
  match l with
  | [] => []
  | c :: rest =>
    if c = btickC then
      match h : findCloseC rest with
      | some p => "<code>".data ++ p.1 ++ "</code>".data ++ codeSpanAux p.2
      | none => c :: codeSpanAux rest
    else c :: codeSpanAux rest
termination_by l.length
decreasing_by
  · have := findCloseC_length h
    simp; omega
  · simp
  · simp

/-- The global replace `\n\n` → `</p><p>`. -/
def parAux : List Char → List Char
  | [] => []
  | '\n' :: '\n' :: rest => "</p><p>".data ++ parAux rest
  | c :: rest => c :: parAux rest

/-- `renderMarkdown(text)`: the fixed small markdown rule set of the source,
returning the empty string on falsy input and otherwise wrapping the
transformed text once in a paragraph. -/
def renderMarkdown (s : String) : String :=
  if s = "" then ""
  else
    "<p>" ++ String.mk
      (parAux (codeSpanAux (italAux (boldAux
        (headerPass "# ".data "<h1>".data "</h1>".data
          (headerPass "## ".data "<h2>".data "</h2>".data
            (headerPass "### ".data "<h3>".data "</h3>".data s.data))))))) ++ "</p>"

/-! ## Notebook data model and renderers

A notebook cell's `source` (and output text) is either a single string,
an array of line fragments, or absent/null. -/

/-- A JavaScript string-or-array-of-strings-or-missing value. -/
inductive JsStr where
  | str : String → JsStr
  | arr : List String → JsStr
  | undef : JsStr
deriving DecidableEq, Repr

/-- Concatenate a list of strings (the source's `html +=` accumulation and
`join('')`). -/
def joinStrings : List String → String
  | [] => ""
  | s :: rest => s ++ joinStrings rest

/-- `Array.isArray(x) ? x.join('') : x`, with falsy values collapsing to the
empty string (the source reaches them through `|| ''` or a falsy test). -/
def joinSource : JsStr → String
  | .str s => s
  | .arr l => joinStrings l
  | .undef => ""

/-- The keyed data payloads of a notebook output. -/
structure OutputData where
  imagePng : Option String := none
  imageJpeg : Option String := none
  imageSvg : Option String := none
  textPlain : Option JsStr := none
deriving DecidableEq, Repr

/-- One entry of a code cell's `outputs` list. -/
structure Output where
  data : Option OutputData := none
  output_type : String := ""
  text : Option JsStr := none
deriving DecidableEq, Repr

/-- One notebook cell. -/
structure Cell where
  cell_type : String
  source : JsStr := .undef
  outputs : Option (List Output) := none
deriving DecidableEq, Repr

/-- A parsed notebook object (`cells` may be missing). -/
structure Notebook where
  cells : Option (List Cell) := none
deriving DecidableEq, Repr

/-- JavaScript truthiness of an optional string field. -/
def truthyOS : Option String → Bool
  | none => false
  | some s => decide (s ≠ "")

/-- JavaScript truthiness of an optional string-or-array field
(arrays are always truthy, empty strings and null are falsy). -/
def truthyOJ : Option JsStr → Bool
  | none => false
  | some (.str s) => decide (s ≠ "")
  | some (.arr _) => true
  | some .undef => false

/-- Check whether `sub` occurs contiguously inside a character list. -/
def listContains (sub : List Char) : List Char → Bool
  | [] => sub.isEmpty
  | c :: rest => sub.isPrefixOf (c :: rest) || listContains sub rest

/-- `String.prototype.includes`. -/
def includesS (s sub : String) : Bool :=
  listContains sub.data s.data

/-- The `<img>` element the source emits for a base64 image payload. -/
def imgTag (mime payload : String) : String :=
  "<img src=\"data:" ++ mime ++ ";base64," ++ payload ++ "\" style=\"max-width:100%;\">"

/-- The `pre.out` element the source emits for escaped text output. -/
def preOut (text : String) : String :=
  "<pre class=\"out\">" ++ escapeHtml text ++ "</pre>"

/-- The trailing `stream` branch of the output renderer. -/
def streamPart (o : Output) : String :=
  if o.output_type = "stream" ∧ truthyOJ o.text then
    preOut (joinSource (o.text.getD .undef))
  else ""

/-- Render one output of a code cell: PNG, then JPEG, then SVG image data,
else truthy `text/plain` (suppressed when it carries a figure placeholder),
else a stream output's text, else nothing. -/
def renderOutput (o : Output) : String :=
  match o.data with
  | none => streamPart o
  | some d =>
    if truthyOS d.imagePng then imgTag "image/png" (d.imagePng.getD "")
    else if truthyOS d.imageJpeg then imgTag "image/jpeg" (d.imageJpeg.getD "")
    else if truthyOS d.imageSvg then imgTag "image/svg+xml" (d.imageSvg.getD "")
    else if truthyOJ d.textPlain then
      let text := joinSource (d.textPlain.getD .undef)
      if includesS text "<Figure size" || includesS text "Figure(" then ""
      else preOut text
    else streamPart o

/-- Render one cell for the full (modal) notebook view. -/
def renderFullCell (c : Cell) : String :=
  "<div class=\"viewer-cell " ++ c.cell_type ++ "\">" ++
  (if c.cell_type = "markdown" then renderMarkdown (joinSource c.source)
   else if c.cell_type = "code" then
     "<pre><code class=\"language-python\">" ++ escapeHtml (joinSource c.source)
       ++ "</code></pre>" ++ joinStrings ((c.outputs.getD []).map renderOutput)
   else "") ++ "</div>"

/-- `renderFullNotebook(nb)`: render every cell (`nb.cells || []`). -/
def renderFullNotebook (nb : Notebook) : String :=
  joinStrings ((nb.cells.getD []).map renderFullCell)

/-- Number of notebook cells to show in preview (source constant). -/
def NOTEBOOK_PREVIEW_CELLS : Nat := 3

/-- The preview rendering of one counted cell (markdown, or trimmed code). -/
def renderPreviewCell (c : Cell) : String :=
  if c.cell_type = "markdown" then renderMarkdown (joinSource c.source)
  else "<pre><code class=\"language-python\">" ++ escapeHtml (joinSource c.source).trim
    ++ "</code></pre>"

/-- The preview loop of `renderNotebookPreview`: iterate cells in order,
stop once `shown` reaches the preview budget, and count only markdown and
code cells. -/
def previewLoop : List Cell → Nat → String
  | [], _ => ""
  | c :: rest, shown =>
    if shown ≥ NOTEBOOK_PREVIEW_CELLS then ""
    else if c.cell_type = "markdown" then
      renderMarkdown (joinSource c.source) ++ previewLoop rest (shown + 1)
    else if c.cell_type = "code" then
      "<pre><code class=\"language-python\">" ++ escapeHtml (joinSource c.source).trim
        ++ "</code></pre>" ++ previewLoop rest (shown + 1)
    else previewLoop rest shown

/-- `renderNotebookPreview(nb)`: preview of the first counted cells. -/
def renderNotebookPreview (nb : Notebook) : String :=
  previewLoop (nb.cells.getD []) 0

/-! ## Path normalization and the folder tree

`RawFileRef` models a selected/dropped file's metadata: its `name` and the
two optional location hints, `webkitRelativePath` (directory picker) and
`fullPath` (drag-and-drop traversal).  A missing hint is the empty string
(both are falsy in the source's `wrp || fullPath || ''` chain). -/

/-- A file handle with its location hints. -/
structure RawFileRef where
  name : String
  webkitRelativePath : String := ""
  fullPath : String := ""
deriving DecidableEq, Repr

/-- Flush a pending run of backslashes: the first replace
(`/\\\\+/g` → `/`) turns every run of two or more backslashes into one
forward slash and leaves a single backslash alone. -/
def flushBS : Nat → List Char
  | 0 => []
  | 1 => ['\\']
  | _ + 2 => ['/']

/-- State-machine scan implementing the run-collapsing replace; `pend`
counts backslashes seen but not yet flushed. -/
def bsAux : List Char → Nat → List Char
  | [], pend => flushBS pend
  | c :: rest, pend =>
    if c = '\\' then bsAux rest (pend + 1)
    else flushBS pend ++ c :: bsAux rest 0

/-- `path.replace(/\\\\+/g, '/').replace(/\\/g, '/')`: collapse backslash
runs to `/`, then turn each remaining single backslash into `/`. -/
def normalizeBackslashes (s : String) : String :=
  String.mk ((bsAux s.data 0).map (fun c => if c = '\\' then '/' else c))

/-- `normalizeFilePath(file)`: prefer `webkitRelativePath`, then `fullPath`;
with no hint return the bare name, otherwise the backslash-normalized hint. -/
def normalizeFilePath (f : RawFileRef) : String :=
  let path :=
    if f.webkitRelativePath ≠ "" then f.webkitRelativePath
    else if f.fullPath ≠ "" then f.fullPath
    else ""
  if path = "" then f.name else normalizeBackslashes path

/-- `normalized.split('/').filter(Boolean)`: the canonical path segments. -/
def canonicalParts (f : RawFileRef) : List String :=
  ((splitOnChar '/' (normalizeFilePath f).data).map String.mk).filter (fun s => s != "")

/-- `buildTree` reassigns `f.fullPath = normalized` before storing the file. -/
def normalizeFileRef (f : RawFileRef) : RawFileRef :=
  { f with fullPath := normalizeFilePath f }

/-- A dynamic tree node: a plain object with ordered properties, or a file
array which (as any JavaScript array) can also carry named properties. -/
inductive JsVal where
  | obj : List (String × JsVal) → JsVal
  | arr : List RawFileRef → List (String × JsVal) → JsVal

/-- First-match property lookup (`node[key]`). -/
def getProp : List (String × JsVal) → String → Option JsVal
  | [], _ => none
  | (k, v) :: rest, key => if k = key then some v else getProp rest key

/-- Property assignment (`node[key] = v`): replace in place or append. -/
def setProp : List (String × JsVal) → String → JsVal → List (String × JsVal)
  | [], key, v => [(key, v)]
  | (k, w) :: rest, key, v =>
    if k = key then (key, v) :: rest else (k, w) :: setProp rest key v

/-- The ordered properties of a node. -/
def propsOf : JsVal → List (String × JsVal)
  | .obj ps => ps
  | .arr _ ps => ps

/-- Replace the properties of a node, keeping array elements intact. -/
def withProps : JsVal → List (String × JsVal) → JsVal
  | .obj _, ps => .obj ps
  | .arr es _, ps => .arr es ps

/-- Property lookup on a node. -/
def getPropV (n : JsVal) (key : String) : Option JsVal :=
  getProp (propsOf n) key

/-- The inner loop of `buildTree` for one file: walk/create nodes for every
segment but the last; at the last segment push the file onto `node.files`
(creating the list when the property is absent).  When the `files` property
holds a plain object, `node.files.push(f)` throws a `TypeError`. -/
def insertFile (node : JsVal) (parts : List String) (f : RawFileRef) :
    Except String JsVal :=
  match parts with
  | [] => .ok node
  | [_] =>
    match getPropV node "files" with
    | none => .ok (withProps node (setProp (propsOf node) "files" (.arr [f] [])))
    | some (.arr es ps) =>
      .ok (withProps node (setProp (propsOf node) "files" (.arr (es ++ [f]) ps)))
    | some (.obj _) => .error "TypeError: node.files.push is not a function"
  | part :: rest =>
    match insertFile ((getPropV node part).getD (.obj [])) rest f with
    | .ok child => .ok (withProps node (setProp (propsOf node) part child))
    | .error e => .error e

/-- `buildTree(files)`: fold every file into an initially empty tree, using
its canonical path segments; the file is stored with its `fullPath`
reassigned to the normalized path. -/
def buildTree (files : List RawFileRef) : Except String JsVal :=
  files.foldlM (fun tree f => insertFile tree (canonicalParts f) (normalizeFileRef f))
    (.obj [])

/-- Sequential lookup of a folder path from a node (`node = node[p]` chains). -/
def walkFolders : JsVal → List String → Option JsVal
  | n, [] => some n
  | n, p :: rest =>
    match getPropV n p with
    | some c => walkFolders c rest
    | none => none

/-- The `files` list of a node (empty when absent or not an array). -/
def filesOfNode (n : JsVal) : List RawFileRef :=
  match getPropV n "files" with
  | some (.arr es _) => es
  | _ => []

/-- The `files` list reached by walking a folder path from the root. -/
def filesAtPath (t : JsVal) (folders : List String) : List RawFileRef :=
  match walkFolders t folders with
  | some n => filesOfNode n
  | none => []

/-- The `files` list reached by a full canonical path: all but the last
segment are folder keys. -/
def filesAt (t : JsVal) (segs : List String) : List RawFileRef :=
  filesAtPath t segs.dropLast

/-! ## Breadcrumb navigation -/

/-- Result of a breadcrumb jump: the new navigation path, the node to
render, and whether the not-found diagnostic was recorded. -/
structure JumpResult where
  path : List String
  node : JsVal
  diag : Bool

/-- The resolution loop of the breadcrumb click handler: follow each
segment; on a missing segment fall back to the root and record the
diagnostic (`console.warn`), abandoning the rest of the path. -/
def resolveBreadcrumb (root : JsVal) : JsVal → List String → JsVal × Bool
  | node, [] => (node, false)
  | node, p :: rest =>
    match getPropV node p with
    | some child => resolveBreadcrumb root child rest
    | none => (root, true)

/-- `jumpToBreadcrumb(i)` (the breadcrumb span's click handler in
`updateBreadcrumbs`): truncate the navigation path to `i + 1` segments and
resolve it from the root; on failure reset the path to empty. -/
def jumpToBreadcrumb (root : JsVal) (currentPath : List String) (i : Nat) :
    JumpResult :=
  let truncated := currentPath.take (i + 1)
  match resolveBreadcrumb root root truncated with
  | (node, false) => ⟨truncated, node, false⟩
  | (node, true) => ⟨[], node, true⟩

/-! ## Modal carousel navigation -/

/-- `Array.prototype.indexOf`: first index of `x`, `-1` when absent. -/
def indexOfJs : List String → String → Int
  | [], _ => -1
  | a :: rest, x =>
    if a = x then 0
    else if indexOfJs rest x = -1 then -1 else indexOfJs rest x + 1

/-- The modal navigation state captured by `openNotebookModal`. -/
structure ModalNav where
  currentCardIndex : Int
  navigationCardIds : List String

/-- `openNotebookModal(cardId)`: capture the visible card ids and locate the
opened card's cursor. -/
def openNotebookModal (galleryCardIds : List String) (cardId : String) : ModalNav :=
  ⟨indexOfJs galleryCardIds cardId, galleryCardIds⟩

/-- `updateNavigationButtons`: a previous step is available iff the cursor
is positive. -/
def hasPrev (m : ModalNav) : Bool :=
  decide (0 < m.currentCardIndex)

/-- `updateNavigationButtons`: a next step is available iff the cursor is
below the last position. -/
def hasNext (m : ModalNav) : Bool :=
  decide (m.currentCardIndex < (m.navigationCardIds.length : Int) - 1)

/-! ## Claim C2: output precedence -/

/-- A code cell whose outputs list is `[ {text/plain:"42"}, {image/png:"AAAA"} ]`. -/
def nbC2 : Notebook :=
  ⟨some [⟨"code", .str "", some
    [⟨some ⟨none, none, none, some (.str "42")⟩, "execute_result", none⟩,
     ⟨some ⟨some "AAAA", none, none, none⟩, "display_data", none⟩]⟩]⟩

/-- C2 counterexample: for the outputs list `[ {text/plain:"42"},
{image/png:"AAAA"} ]`, full rendering emits the text output `42` (and then
the image): each output renders independently in list order, so the image
payload of a later output does not suppress the text of an earlier one. -/
theorem c2_counterexample :
    includesS (renderFullNotebook nbC2) "<pre class=\"out\">42</pre>" = true ∧
    includesS (renderFullNotebook nbC2) (imgTag "image/png" "AAAA") = true := by
  decide

/-- C2 (amended): image payloads take precedence over text within a single
output: an output whose `data` carries a non-empty `image/png` payload
renders the embedded PNG image, whatever `text/plain` payload the same
output also carries; distinct outputs in the list render independently in
source order. -/
theorem c2_image_precedence (o : Output) (d : OutputData) (p : String)
    (hd : o.data = some d) (hp : d.imagePng = some p) (hne : p ≠ "") :
    renderOutput o = imgTag "image/png" p := by
  simp [renderOutput, hd, truthyOS, hp, hne]

/-- C2 witness: the amended precedence at a concrete output carrying both a
PNG payload and a text payload. -/
theorem c2_witness :
    renderOutput ⟨some ⟨some "AAAA", none, none, some (.str "42")⟩, "display_data", none⟩
      = imgTag "image/png" "AAAA" :=
  c2_image_precedence _ _ _ rfl rfl (by decide)

/-! ## Claim C3: hint preference of the path canonicalizer -/

/-- A file carrying both a picker-derived and a traversal-derived hint. -/
def refC3 : RawFileRef := ⟨"a.ipynb", "picker/a.ipynb", "trav/a.ipynb"⟩

/-- C3 counterexample: when both location hints are present, the canonical
path comes from the picker-derived `webkitRelativePath`, not from the
traversal-derived `fullPath` as the claim states. -/
theorem c3_counterexample :
    refC3.webkitRelativePath ≠ "" ∧ refC3.fullPath ≠ "" ∧
    normalizeFilePath refC3 = "picker/a.ipynb" ∧
    normalizeFilePath refC3 ≠ refC3.fullPath := by
  decide

/-- C3 (amended): the canonical path is derived from the hints in the
preference order picker-derived relative path first, then traversal-derived
path, then bare file name; the chosen hint is backslash-normalized (runs of
backslashes collapse to one forward slash). -/
theorem c3_hint_preference (f : RawFileRef) :
    (f.webkitRelativePath ≠ "" →
      normalizeFilePath f = normalizeBackslashes f.webkitRelativePath) ∧
    (f.webkitRelativePath = "" → f.fullPath ≠ "" →
      normalizeFilePath f = normalizeBackslashes f.fullPath) ∧
    (f.webkitRelativePath = "" → f.fullPath = "" →
      normalizeFilePath f = f.name) := by
  refine ⟨fun h1 => ?_, fun h1 h2 => ?_, fun h1 h2 => ?_⟩
  · simp [normalizeFilePath, h1]
  · simp [normalizeFilePath, h1, h2]
  · simp [normalizeFilePath, h1, h2]

/-- C3 witness: each branch of the amended preference order at a concrete
file reference. -/
theorem c3_witness :
    normalizeFilePath ⟨"w.ipynb", "pick\\w.ipynb", "trav/w.ipynb"⟩ = "pick/w.ipynb" ∧
    normalizeFilePath ⟨"t.ipynb", "", "trav\\\\t.ipynb"⟩ = "trav/t.ipynb" ∧
    normalizeFilePath ⟨"bare.ipynb", "", ""⟩ = "bare.ipynb" :=
  ⟨((c3_hint_preference _).1 (by decide)).trans (by decide),
   ((c3_hint_preference _).2.1 (by decide) (by decide)).trans (by decide),
   (c3_hint_preference _).2.2 (by decide) (by decide)⟩

/-! ## Claim C4: the reserved `files` key -/

/-- A file whose canonical path has an intermediate folder named `files`. -/
def fFilesDir : RawFileRef := ⟨"a.ipynb", "files/a.ipynb", ""⟩

/-- A root-level file inserted after the `files` folder exists. -/
def fRootFile : RawFileRef := ⟨"root.ipynb", "root.ipynb", ""⟩

/-- C4: evaluating the tree builder at the failing input.  Inserting
`files/a.ipynb` stores a plain folder object under the root's `files` key;
inserting the root-level `root.ipynb` then calls `push` on that plain
object and throws, so the build aborts instead of treating the `files`
folder as its own subtree. -/
theorem c4_code_evaluation :
    buildTree [fFilesDir, fRootFile] =
      .error "TypeError: node.files.push is not a function" := by
  rfl

/-! ## Claim C7: breadcrumb jumps -/

theorem resolveBreadcrumb_eq_walk (segs : List String) (root node : JsVal) :
    resolveBreadcrumb root node segs =
      match walkFolders node segs with
      | some n => (n, false)
      | none => (root, true) := by
  induction segs generalizing node with
  | nil => rfl
  | cons p rest ih =>
    simp only [resolveBreadcrumb, walkFolders]
    cases getPropV node p with
    | none => rfl
    | some c => exact ih c

/-- C7: selecting breadcrumb `i` truncates the navigation path to its first
`i + 1` segments and resolves it from the root one segment at a time; either
every segment resolves (and the jump lands on the resolved node, recording
no diagnostic), or the path resets to empty, the rendered node is the root,
and the diagnostic is recorded — the jump is total, so no exception escapes. -/
theorem c7_breadcrumb_jump (root : JsVal) (currentPath : List String) (i : Nat) :
    ((jumpToBreadcrumb root currentPath i).path = currentPath.take (i + 1) ∧
      walkFolders root (jumpToBreadcrumb root currentPath i).path =
        some (jumpToBreadcrumb root currentPath i).node ∧
      (jumpToBreadcrumb root currentPath i).diag = false) ∨
    ((jumpToBreadcrumb root currentPath i).path = [] ∧
      (jumpToBreadcrumb root currentPath i).node = root ∧
      (jumpToBreadcrumb root currentPath i).diag = true) := by
  simp only [jumpToBreadcrumb]
  rw [resolveBreadcrumb_eq_walk]
  cases hw : walkFolders root (currentPath.take (i + 1)) with
  | some n => exact Or.inl ⟨rfl, by simpa using hw, rfl⟩
  | none => exact Or.inr ⟨rfl, rfl, rfl⟩

/-! ## Claim C8: carousel boundary availability -/

theorem indexOfJs_cons (a x : String) (rest : List String) :
    indexOfJs (a :: rest) x =
      if a = x then 0
      else if indexOfJs rest x = -1 then -1 else indexOfJs rest x + 1 := rfl

theorem indexOfJs_head (ids : List String) (h : ids ≠ []) :
    indexOfJs ids (ids.head h) = 0 := by
  cases ids with
  | nil => exact absurd rfl h
  | cons a rest => simp [indexOfJs]

theorem indexOfJs_getLast (ids : List String) (h : ids ≠ []) (hnd : ids.Nodup) :
    indexOfJs ids (ids.getLast h) = (ids.length : Int) - 1 := by
  induction ids with
  | nil => exact absurd rfl h
  | cons a rest ih =>
    cases rest with
    | nil => simp [indexOfJs, List.getLast]
    | cons b t =>
      have hne : b :: t ≠ [] := by simp
      have hg : (a :: b :: t).getLast h = (b :: t).getLast hne :=
        List.getLast_cons hne
      have hmem : (b :: t).getLast hne ∈ b :: t := List.getLast_mem hne
      have hna : a ∉ b :: t := (List.nodup_cons.mp hnd).1
      have hax : a ≠ (b :: t).getLast hne := fun e => hna (e ▸ hmem)
      have hr := ih hne (List.nodup_cons.mp hnd).2
      rw [hg, indexOfJs_cons, if_neg hax, hr]
      have hlen : ((b :: t).length : Int) - 1 = (t.length : Int) := by
        simp
      rw [hlen]
      have hni : (t.length : Int) ≠ -1 := by omega
      rw [if_neg hni]
      simp

/-- C8: availability of the carousel steps is exactly `cursor > 0` for the
previous step and `cursor < length - 1` for the next step, with no
wraparound: opening the first card of a duplicate-free navigation set gives
previous-unavailable and next-available exactly when the set has at least
two cards; opening the last card gives the reverse; a singleton set gives
both unavailable. -/
theorem c8_carousel_boundaries (ids : List String) (hnd : ids.Nodup)
    (hne : ids ≠ []) :
    (hasPrev (openNotebookModal ids (ids.head hne)) = false ∧
      hasNext (openNotebookModal ids (ids.head hne)) = decide (2 ≤ ids.length)) ∧
    (hasPrev (openNotebookModal ids (ids.getLast hne)) = decide (2 ≤ ids.length) ∧
      hasNext (openNotebookModal ids (ids.getLast hne)) = false) ∧
    (∀ x, hasPrev (openNotebookModal ids x) = decide (0 < indexOfJs ids x) ∧
      hasNext (openNotebookModal ids x) =
        decide (indexOfJs ids x < (ids.length : Int) - 1)) := by
  refine ⟨⟨?_, ?_⟩, ⟨?_, ?_⟩, fun x => ⟨rfl, rfl⟩⟩
  · simp [hasPrev, openNotebookModal, indexOfJs_head ids hne]
  · simp only [hasNext, openNotebookModal, indexOfJs_head ids hne]
    rw [decide_eq_decide]
    omega
  · simp only [hasPrev, openNotebookModal, indexOfJs_getLast ids hne hnd]
    rw [decide_eq_decide]
    omega
  · simp only [hasNext, openNotebookModal, indexOfJs_getLast ids hne hnd]
    simp

/-- C8 witness: the boundary availabilities at a concrete two-card set. -/
theorem c8_witness :
    hasPrev (openNotebookModal ["a", "b"] "a") = false ∧
    hasNext (openNotebookModal ["a", "b"] "a") = true ∧
    hasPrev (openNotebookModal ["a", "b"] "b") = true ∧
    hasNext (openNotebookModal ["a", "b"] "b") = false := by
  have h := c8_carousel_boundaries ["a", "b"] (by decide) (by decide)
  exact ⟨h.1.1, h.1.2.trans (by decide), h.2.1.1.trans (by decide), h.2.1.2⟩

/-! ## Claim C9: preview cell counting -/

/-- The cell types that count against the preview budget. -/
def countedCell (c : Cell) : Bool :=
  (c.cell_type == "markdown") || (c.cell_type == "code")

theorem previewLoop_take (cells : List Cell) : ∀ shown,
    previewLoop cells shown =
      joinStrings (((cells.filter countedCell).take
        (NOTEBOOK_PREVIEW_CELLS - shown)).map renderPreviewCell) := by
  induction cells with
  | nil => intro shown; simp [previewLoop, joinStrings]
  | cons c rest ih =>
    intro shown
    simp only [previewLoop]
    by_cases hb : shown ≥ NOTEBOOK_PREVIEW_CELLS
    · rw [if_pos hb]
      have h0 : NOTEBOOK_PREVIEW_CELLS - shown = 0 := by omega
      rw [h0]
      simp [joinStrings]
    · rw [if_neg hb]
      have hpos : NOTEBOOK_PREVIEW_CELLS - shown =
          (NOTEBOOK_PREVIEW_CELLS - (shown + 1)) + 1 := by omega
      by_cases hmd : c.cell_type = "markdown"
      · rw [if_pos hmd, ih (shown + 1)]
        have hcc : countedCell c = true := by simp [countedCell, hmd]
        rw [List.filter_cons_of_pos hcc, hpos, List.take_succ_cons, List.map_cons]
        simp [joinStrings, renderPreviewCell, hmd]
      · rw [if_neg hmd]
        by_cases hcd : c.cell_type = "code"
        · rw [if_pos hcd, ih (shown + 1)]
          have hcc : countedCell c = true := by simp [countedCell, hcd]
          rw [List.filter_cons_of_pos hcc, hpos, List.take_succ_cons, List.map_cons]
          simp [joinStrings, renderPreviewCell, hmd]
        · rw [if_neg hcd, ih shown]
          have hcc : countedCell c = false := by simp [countedCell, hmd, hcd]
          rw [List.filter_cons_of_neg (by simp [hcc])]

/-- C9: preview rendering renders exactly the first `NOTEBOOK_PREVIEW_CELLS`
markdown/code cells in document order — the running counter increments only
for markdown and code cells, so cells of any other type are skipped without
consuming the budget. -/
theorem c9_preview_counting (nb : Notebook) :
    renderNotebookPreview nb =
      joinStrings ((((nb.cells.getD []).filter countedCell).take
        NOTEBOOK_PREVIEW_CELLS).map renderPreviewCell) := by
  simpa [renderNotebookPreview] using previewLoop_take (nb.cells.getD []) 0

/-! ## Claim C1: HTML escaping of user-supplied text -/

theorem boldAux_id (l : List Char) (h : '*' ∉ l) : boldAux l = l := by
  induction l with
  | nil => simp [boldAux]
  | cons c rest ih =>
    simp only [List.mem_cons, not_or] at h
    have hcond : ¬(c = '*' ∧ rest.head? = some '*') := fun hand => h.1 hand.1.symm
    unfold boldAux
    rw [if_neg hcond]
    exact congrArg (c :: ·) (ih h.2)

theorem italAux_id (l : List Char) (h : '*' ∉ l) : italAux l = l := by
  induction l with
  | nil => simp [italAux]
  | cons c rest ih =>
    simp only [List.mem_cons, not_or] at h
    have hcond : ¬(c = '*') := fun e => h.1 e.symm
    unfold italAux
    rw [if_neg hcond]
    exact congrArg (c :: ·) (ih h.2)

theorem codeSpanAux_id (l : List Char) (h : btickC ∉ l) : codeSpanAux l = l := by
  induction l with
  | nil => simp [codeSpanAux]
  | cons c rest ih =>
    simp only [List.mem_cons, not_or] at h
    have hcond : ¬(c = btickC) := fun e => h.1 e.symm
    unfold codeSpanAux
    rw [if_neg hcond]
    exact congrArg (c :: ·) (ih h.2)

/-- The escaping test input `<script>&"'</script>`. -/
def xssS : String := "<script>&\"" ++ String.singleton apostC ++ "</script>"

/-- A notebook whose single markdown cell carries the escaping test input. -/
def nbC1 : Notebook := ⟨some [⟨"markdown", .str xssS, none⟩]⟩

/-- C1 counterexample: a markdown cell whose source is `<script>&"'</script>`
previews as `<p><script>&"'</script></p>` — the markdown renderer inserts
the user-supplied source verbatim, so the output markup contains the raw
`&`, `"`, `<` and `'` characters of the input, contradicting the claim that
every inserted user text (markdown cell sources included) is HTML-escaped. -/
theorem c1_counterexample :
    renderNotebookPreview nbC1 = "<p>" ++ xssS ++ "</p>" ∧
    ('&' ∈ xssS.data ∧ '"' ∈ xssS.data ∧ '<' ∈ xssS.data ∧ apostC ∈ xssS.data) := by
  constructor
  · have hH : headerPass "# ".data "<h1>".data "</h1>".data
        (headerPass "## ".data "<h2>".data "</h2>".data
          (headerPass "### ".data "<h3>".data "</h3>".data xssS.data)) = xssS.data := by
      decide
    have hB : boldAux xssS.data = xssS.data := boldAux_id _ (by decide)
    have hI : italAux xssS.data = xssS.data := italAux_id _ (by decide)
    have hC : codeSpanAux xssS.data = xssS.data := codeSpanAux_id _ (by decide)
    have hP : parAux xssS.data = xssS.data := by decide
    have hne : ¬(xssS = "") := by decide
    calc renderNotebookPreview nbC1 = renderMarkdown xssS := by
          simp [renderNotebookPreview, nbC1, previewLoop, NOTEBOOK_PREVIEW_CELLS, joinSource]
      _ = "<p>" ++ xssS ++ "</p>" := by
          unfold renderMarkdown
          rw [if_neg hne, hH, hB, hI, hC, hP]
  · exact ⟨by decide, by decide, by decide, by decide⟩

/-- A character that is safe in escaped output: not an angle bracket and
not a quote. -/
def safeOutChar (c : Char) : Bool :=
  !(c == '<' || c == '>' || c == '"' || c == apostC)

/-- C1 (amended): the pieces of user-supplied text that the renderers pass
through `escapeHtml` — code cell sources, output texts and script preview
lines — are HTML-escaped with coverage of ampersand, both angle brackets,
double quote and single quote, and the escaped text contains no raw `<`,
`>`, `"` or `'` character at all; markdown cell sources, however, are
inserted through the markdown converter without HTML escaping. -/
theorem c1_escaping (s : String) :
    ((escapeHtml s).data.all safeOutChar = true) ∧
    renderFullNotebook ⟨some [⟨"code", .str s, some []⟩]⟩ =
      "<div class=\"viewer-cell code\">" ++
        ("<pre><code class=\"language-python\">" ++ escapeHtml s ++ "</code></pre>")
        ++ "</div>" := by
  constructor
  · rw [List.all_eq_true]
    intro c hc
    simp only [escapeHtml, List.mem_flatMap] at hc
    obtain ⟨a, -, hca⟩ := hc
    simp only [escChar] at hca
    split_ifs at hca with h1 h2 h3 h4 h5
    · exact List.all_eq_true.mp (show "&amp;".data.all safeOutChar = true by decide) c hca
    · exact List.all_eq_true.mp (show "&lt;".data.all safeOutChar = true by decide) c hca
    · exact List.all_eq_true.mp (show "&gt;".data.all safeOutChar = true by decide) c hca
    · exact List.all_eq_true.mp (show "&quot;".data.all safeOutChar = true by decide) c hca
    · exact List.all_eq_true.mp (show "&#39;".data.all safeOutChar = true by decide) c hca
    · simp only [List.mem_singleton] at hca
      subst hca
      simp [safeOutChar, h2, h3, h4, h5]
  · simp [renderFullNotebook, renderFullCell, joinStrings, joinSource]

/-! ## Claims C5 and C6: tree builder invariants

Helper lemmas about property lists and the shape invariant `Clean` of trees
the builder produces on benign inputs. -/

theorem getProp_setProp_self (ps : List (String × JsVal)) (k : String) (v : JsVal) :
    getProp (setProp ps k v) k = some v := by
  induction ps with
  | nil => simp [setProp, getProp]
  | cons kv rest ih =>
    obtain ⟨k1, v1⟩ := kv
    by_cases h : k1 = k
    · simp [setProp, getProp, h]
    · simp [setProp, getProp, h, ih]

theorem getProp_setProp_ne (ps : List (String × JsVal)) (k key : String) (v : JsVal)
    (h : key ≠ k) : getProp (setProp ps k v) key = getProp ps key := by
  induction ps with
  | nil => simp [setProp, getProp, Ne.symm h]
  | cons kv rest ih =>
    obtain ⟨k1, v1⟩ := kv
    by_cases h1 : k1 = k
    · subst h1
      simp [setProp, getProp, Ne.symm h]
    · by_cases h2 : k1 = key
      · subst h2
        simp [setProp, getProp, h1]
      · simp [setProp, getProp, h1, h2, ih]

theorem getProp_mem (ps : List (String × JsVal)) (k : String) (v : JsVal)
    (h : getProp ps k = some v) : (k, v) ∈ ps := by
  induction ps with
  | nil => simp [getProp] at h
  | cons kv rest ih =>
    obtain ⟨k1, v1⟩ := kv
    by_cases h1 : k1 = k
    · subst h1
      simp [getProp] at h
      simp [h]
    · simp [getProp, h1] at h
      exact List.mem_cons_of_mem _ (ih h)

theorem mem_setProp (ps : List (String × JsVal)) (k : String) (v : JsVal)
    (key : String) (w : JsVal) (h : (key, w) ∈ setProp ps k v) :
    (key = k ∧ w = v) ∨ (key, w) ∈ ps := by
  induction ps with
  | nil =>
    simp [setProp] at h
    exact Or.inl h
  | cons kv rest ih =>
    obtain ⟨k1, v1⟩ := kv
    by_cases h1 : k1 = k
    · subst h1
      simp only [setProp, if_pos rfl] at h
      rcases List.mem_cons.mp h with he | hm
      · exact Or.inl (Prod.mk.injEq .. ▸ he)
      · exact Or.inr (List.mem_cons_of_mem _ hm)
    · simp only [setProp, if_neg h1] at h
      rcases List.mem_cons.mp h with he | hm
      · exact Or.inr (List.mem_cons.mpr (Or.inl he))
      · rcases ih hm with hl | hr
        · exact Or.inl hl
        · exact Or.inr (List.mem_cons_of_mem _ hr)

/-- The shape of trees the builder produces on benign input: a plain object
whose `files` property (when present) is a property-free file array and
whose other properties are again such trees. -/
inductive Clean : JsVal → Prop where
  | obj (ps : List (String × JsVal))
      (hfiles : ∀ v, ("files", v) ∈ ps → ∃ es, v = .arr es [])
      (hchild : ∀ k v, (k, v) ∈ ps → k ≠ "files" → Clean v) :
      Clean (.obj ps)

theorem clean_emptyObj : Clean (.obj []) :=
  .obj [] (by simp) (by simp)

theorem filesAtPath_consPath (ps : List (String × JsVal)) (q : String)
    (fp : List String) :
    filesAtPath (.obj ps) (q :: fp) =
      match getProp ps q with
      | some c => filesAtPath c fp
      | none => [] := by
  simp only [filesAtPath, walkFolders, getPropV, propsOf]
  cases getProp ps q <;> rfl

theorem filesAtPath_emptyObj (fp : List String) : filesAtPath (.obj []) fp = [] := by
  cases fp <;> rfl

theorem filesAtPath_arrNil (es : List RawFileRef) (fp : List String) :
    filesAtPath (.arr es []) fp = [] := by
  cases fp <;> rfl


theorem filesAtPath_cons_some {ps : List (String × JsVal)} {q : String} {c : JsVal}
    (h : getProp ps q = some c) (fp : List String) :
    filesAtPath (.obj ps) (q :: fp) = filesAtPath c fp := by
  rw [filesAtPath_consPath, h]

theorem filesAtPath_cons_none {ps : List (String × JsVal)} {q : String}
    (h : getProp ps q = none) (fp : List String) :
    filesAtPath (.obj ps) (q :: fp) = [] := by
  rw [filesAtPath_consPath, h]

theorem insertFile_spec (f : RawFileRef) : ∀ (parts : List String) (node : JsVal),
    Clean node → parts ≠ [] → "files" ∉ parts.dropLast →
    ∃ node', insertFile node parts f = .ok node' ∧ Clean node' ∧
      ∀ fp, filesAtPath node' fp =
        filesAtPath node fp ++ (if fp = parts.dropLast then [f] else []) := by
  intro parts
  induction parts with
  | nil => intro node _ hne _; exact absurd rfl hne
  | cons p rest ih =>
    intro node hcl hne hnf
    cases hcl with
    | obj ps hfiles hchild =>
    cases rest with
    | nil =>
      cases hg : getProp ps "files" with
      | none =>
        refine ⟨.obj (setProp ps "files" (.arr [f] [])), ?_, ?_, ?_⟩
        · simp [insertFile, getPropV, propsOf, hg, withProps]
        · refine .obj _ (fun v hv => ?_) (fun k v hv hk => ?_)
          · rcases mem_setProp _ _ _ _ _ hv with ⟨-, rfl⟩ | hold
            · exact ⟨[f], rfl⟩
            · exact hfiles v hold
          · rcases mem_setProp _ _ _ _ _ hv with ⟨rfl, -⟩ | hold
            · exact absurd rfl hk
            · exact hchild k v hold hk
        · intro fp
          cases fp with
          | nil =>
            simp [filesAtPath, walkFolders, filesOfNode, getPropV, propsOf,
              getProp_setProp_self, hg]
          | cons q fp2 =>
            rw [if_neg (by simp), List.append_nil]
            by_cases hq : q = "files"
            · subst hq
              rw [filesAtPath_cons_some (getProp_setProp_self ps "files" (.arr [f] [])) fp2,
                filesAtPath_cons_none hg fp2, filesAtPath_arrNil]
            · have hgq : getProp (setProp ps "files" (.arr [f] [])) q = getProp ps q :=
                getProp_setProp_ne _ _ _ _ hq
              cases hgq2 : getProp ps q with
              | none =>
                rw [filesAtPath_cons_none (hgq.trans hgq2) fp2,
                  filesAtPath_cons_none hgq2 fp2]
              | some c =>
                rw [filesAtPath_cons_some (hgq.trans hgq2) fp2,
                  filesAtPath_cons_some hgq2 fp2]
      | some v =>
        obtain ⟨es, rfl⟩ := hfiles v (getProp_mem _ _ _ hg)
        refine ⟨.obj (setProp ps "files" (.arr (es ++ [f]) [])), ?_, ?_, ?_⟩
        · simp [insertFile, getPropV, propsOf, hg, withProps]
        · refine .obj _ (fun w hw => ?_) (fun k w hw hk => ?_)
          · rcases mem_setProp _ _ _ _ _ hw with ⟨-, rfl⟩ | hold
            · exact ⟨es ++ [f], rfl⟩
            · exact hfiles w hold
          · rcases mem_setProp _ _ _ _ _ hw with ⟨rfl, -⟩ | hold
            · exact absurd rfl hk
            · exact hchild k w hold hk
        · intro fp
          cases fp with
          | nil =>
            simp [filesAtPath, walkFolders, filesOfNode, getPropV, propsOf,
              getProp_setProp_self, hg]
          | cons q fp2 =>
            rw [if_neg (by simp), List.append_nil]
            by_cases hq : q = "files"
            · subst hq
              rw [filesAtPath_cons_some
                  (getProp_setProp_self ps "files" (.arr (es ++ [f]) [])) fp2,
                filesAtPath_cons_some hg fp2, filesAtPath_arrNil, filesAtPath_arrNil]
            · have hgq : getProp (setProp ps "files" (.arr (es ++ [f]) [])) q
                  = getProp ps q := getProp_setProp_ne _ _ _ _ hq
              cases hgq2 : getProp ps q with
              | none =>
                rw [filesAtPath_cons_none (hgq.trans hgq2) fp2,
                  filesAtPath_cons_none hgq2 fp2]
              | some c =>
                rw [filesAtPath_cons_some (hgq.trans hgq2) fp2,
                  filesAtPath_cons_some hgq2 fp2]
    | cons q2 rest2 =>
      have hrne : (q2 :: rest2) ≠ [] := by simp
      have hdl : (p :: q2 :: rest2).dropLast = p :: (q2 :: rest2).dropLast := by simp
      rw [hdl] at hnf
      simp only [List.mem_cons, not_or] at hnf
      obtain ⟨hnf1, hnf2⟩ := hnf
      have hpf : p ≠ "files" := fun e => hnf1 e.symm
      have hclc : Clean ((getProp ps p).getD (.obj [])) := by
        cases hgp : getProp ps p with
        | none => exact clean_emptyObj
        | some c =>
          exact hchild p c (getProp_mem _ _ _ hgp) hpf
      obtain ⟨child', hins, hclc', hfp⟩ := ih _ hclc hrne hnf2
      refine ⟨.obj (setProp ps p child'), ?_, ?_, ?_⟩
      · simp only [insertFile, getPropV, propsOf]
        rw [hins]
        rfl
      · refine .obj _ (fun w hw => ?_) (fun k w hw hk => ?_)
        · rcases mem_setProp _ _ _ _ _ hw with ⟨he, -⟩ | hold
          · exact absurd he hnf1
          · exact hfiles w hold
        · rcases mem_setProp _ _ _ _ _ hw with ⟨rfl, rfl⟩ | hold
          · exact hclc'
          · exact hchild k w hold hk
      · intro fp
        rw [hdl]
        cases fp with
        | nil =>
          rw [if_neg (by simp), List.append_nil]
          simp only [filesAtPath, walkFolders, filesOfNode, getPropV, propsOf]
          rw [getProp_setProp_ne _ _ _ _ (Ne.symm hpf)]
        | cons q fp2 =>
          by_cases hq : q = p
          · subst hq
            rw [filesAtPath_cons_some (getProp_setProp_self ps q child') fp2, hfp fp2]
            have hcond : (q :: fp2 = q :: (q2 :: rest2).dropLast) ↔
                (fp2 = (q2 :: rest2).dropLast) := by simp
            cases hgp : getProp ps q with
            | none =>
              simp only [Option.getD_none]
              rw [filesAtPath_emptyObj, filesAtPath_cons_none hgp fp2]
              by_cases hc2 : fp2 = (q2 :: rest2).dropLast
              · rw [if_pos hc2, if_pos (hcond.mpr hc2)]
              · rw [if_neg hc2, if_neg (fun e => hc2 (hcond.mp e))]
            | some c =>
              simp only [Option.getD_some, hgp]
              rw [filesAtPath_cons_some hgp fp2]
              by_cases hc2 : fp2 = (q2 :: rest2).dropLast
              · rw [if_pos hc2, if_pos (hcond.mpr hc2)]
              · rw [if_neg hc2, if_neg (fun e => hc2 (hcond.mp e))]
          · have hgq : getProp (setProp ps p child') q = getProp ps q :=
              getProp_setProp_ne _ _ _ _ hq
            rw [if_neg (by simp [hq]), List.append_nil]
            cases hgq2 : getProp ps q with
            | none =>
              rw [filesAtPath_cons_none (hgq.trans hgq2) fp2,
                filesAtPath_cons_none hgq2 fp2]
            | some c =>
              rw [filesAtPath_cons_some (hgq.trans hgq2) fp2,
                filesAtPath_cons_some hgq2 fp2]

theorem buildTree_fold_spec : ∀ (L : List RawFileRef) (t : JsVal), Clean t →
    (∀ f ∈ L, canonicalParts f ≠ [] ∧ "files" ∉ (canonicalParts f).dropLast) →
    ∃ t', (L.foldlM (fun tree f =>
        insertFile tree (canonicalParts f) (normalizeFileRef f)) t) = .ok t' ∧
      Clean t' ∧ ∀ fp, filesAtPath t' fp = filesAtPath t fp ++
        ((L.filter (fun g => (canonicalParts g).dropLast == fp)).map normalizeFileRef) := by
  intro L
  induction L with
  | nil =>
    intro t hcl _
    exact ⟨t, rfl, hcl, by simp⟩
  | cons f L2 ih =>
    intro t hcl hall
    obtain ⟨hne, hnf⟩ := hall f (List.mem_cons_self _ _)
    obtain ⟨t1, hins, hcl1, hfp1⟩ :=
      insertFile_spec (normalizeFileRef f) (canonicalParts f) t hcl hne hnf
    obtain ⟨t2, hfold, hcl2, hfp2⟩ :=
      ih t1 hcl1 (fun g hg => hall g (List.mem_cons_of_mem _ hg))
    refine ⟨t2, ?_, hcl2, ?_⟩
    · rw [List.foldlM_cons, hins]
      simpa using hfold
    · intro fp
      rw [hfp2 fp, hfp1 fp, List.filter_cons]
      by_cases hc : (canonicalParts f).dropLast = fp
      · have hb : ((canonicalParts f).dropLast == fp) = true := by simp [hc]
        rw [if_pos hb, List.map_cons, if_pos hc.symm, List.append_assoc]
        rfl
      · have hb : ¬(((canonicalParts f).dropLast == fp) = true) := by simp [hc]
        rw [if_neg hb, if_neg (fun e => hc e.symm)]
        simp

theorem canonicalParts_of_normalizeFileRef_eq {g f : RawFileRef}
    (h : normalizeFileRef g = normalizeFileRef f) :
    canonicalParts g = canonicalParts f := by
  have hn : normalizeFilePath g = normalizeFilePath f := congrArg RawFileRef.fullPath h
  simp only [canonicalParts, hn]

/-- C6 counterexample: a file whose only hint is the separators-only path
`///` has an empty canonical segment list; the builder drops it entirely
(the built tree is the empty root object), so walking by its canonical path
segments finds a `files` list in which the file does not occur at all, while
it occurs once in the input. -/
theorem c6_counterexample :
    buildTree [⟨"a.ipynb", "", "///"⟩] = .ok (.obj []) ∧
    filesAt (.obj []) (canonicalParts ⟨"a.ipynb", "", "///"⟩) = [] ∧
    List.count (normalizeFileRef ⟨"a.ipynb", "", "///"⟩)
        (filesAt (.obj []) (canonicalParts ⟨"a.ipynb", "", "///"⟩)) ≠
      List.count (normalizeFileRef ⟨"a.ipynb", "", "///"⟩)
        ([(⟨"a.ipynb", "", "///"⟩ : RawFileRef)].map normalizeFileRef) := by
  refine ⟨rfl, rfl, ?_⟩
  decide

/-- C6 (amended): for every input collection in which every file's canonical
path has at least one segment and no intermediate segment equal to the
reserved key `files`, the tree builder succeeds, and for every file in the
input, walking the built tree along that file's canonical path segments
(all but the last as folder keys) reaches a `files` list containing the
stored file (the input file with its `fullPath` hint replaced by the
canonical path) exactly once per occurrence in the input — duplicates are
preserved as separate entries, never collapsed.  A file with an empty
canonical segment list is dropped instead, and an intermediate `files`
segment corrupts the build (see the C4 evaluation). -/
theorem c6_tree_walk (L : List RawFileRef)
    (hall : ∀ f ∈ L, canonicalParts f ≠ [] ∧ "files" ∉ (canonicalParts f).dropLast) :
    ∃ t, buildTree L = .ok t ∧ ∀ f ∈ L,
      List.count (normalizeFileRef f) (filesAt t (canonicalParts f)) =
        List.count (normalizeFileRef f) (L.map normalizeFileRef) := by
  obtain ⟨t, hok, -, hfp⟩ := buildTree_fold_spec L (.obj []) clean_emptyObj hall
  refine ⟨t, hok, ?_⟩
  intro f hf
  have hfa : filesAt t (canonicalParts f) =
      ((L.filter (fun g =>
        (canonicalParts g).dropLast == (canonicalParts f).dropLast)).map
          normalizeFileRef) := by
    rw [filesAt, hfp ((canonicalParts f).dropLast), filesAtPath_emptyObj,
      List.nil_append]
  rw [hfa, List.count_eq_countP, List.count_eq_countP, List.countP_map,
    List.countP_map]
  rw [List.countP_filter]
  congr 1
  funext g
  simp only [Function.comp]
  by_cases hb : normalizeFileRef g = normalizeFileRef f
  · have hcp := canonicalParts_of_normalizeFileRef_eq hb
    simp [hb, hcp]
  · simp [hb]

/-- A demonstration input with a duplicated file and a shared folder. -/
def demoFiles : List RawFileRef :=
  [⟨"x.ipynb", "a/b/x.ipynb", ""⟩, ⟨"y.py", "a/y.py", ""⟩,
   ⟨"x.ipynb", "a/b/x.ipynb", ""⟩, ⟨"z.py", "", "z.py"⟩]

/-- C6 witness: the amended tree-walk invariant instantiated at a concrete
input with nested folders and a duplicated file. -/
theorem c6_witness :
    ∃ t, buildTree demoFiles = .ok t ∧ ∀ f ∈ demoFiles,
      List.count (normalizeFileRef f) (filesAt t (canonicalParts f)) =
        List.count (normalizeFileRef f) (demoFiles.map normalizeFileRef) :=
  c6_tree_walk demoFiles (by decide)

theorem splitOnChar_no_sep (sep : Char) (l : List Char) (h : sep ∉ l) :
    splitOnChar sep l = [l] := by
  induction l with
  | nil => rfl
  | cons c rest ih =>
    simp only [List.mem_cons, not_or] at h
    have hc : ¬(c = sep) := fun e => h.1 e.symm
    simp only [splitOnChar, if_neg hc, ih h.2]

/-- The separators-only location hint used as the C5/C6 counterexample. -/
def sepOnlyRef : RawFileRef := ⟨"a.ipynb", "", "///"⟩

/-- C5 counterexample: a file whose only hint is the separators-only path
`///` canonicalizes to an empty segment list (not to the bare file name),
and the tree builder then drops it: the built tree is the empty root
object with no root-level `files` entry. -/
theorem c5_counterexample :
    canonicalParts sepOnlyRef = [] ∧
    canonicalParts sepOnlyRef ≠ [sepOnlyRef.name] ∧
    buildTree [sepOnlyRef] = .ok (.obj []) := by
  exact ⟨rfl, by decide, rfl⟩

/-- C5 (amended): a file with no location hint canonicalizes to exactly one
segment — its bare name — and is placed as a root-level entry of the built
tree; but a hint consisting only of separator characters canonicalizes to an
empty segment list, and such a file is dropped from the tree (the tree is
left unchanged), not placed at the root. -/
theorem c5_canonical_segments (f : RawFileRef) :
    (f.webkitRelativePath = "" → f.fullPath = "" → '/' ∉ f.name.data → f.name ≠ "" →
      canonicalParts f = [f.name] ∧
      buildTree [f] = .ok (.obj [("files", .arr [normalizeFileRef f] [])])) ∧
    (canonicalParts f = [] → buildTree [f] = .ok (.obj [])) := by
  constructor
  · intro h1 h2 h3 h4
    have hn : normalizeFilePath f = f.name := by
      simp [normalizeFilePath, h1, h2]
    have hcp : canonicalParts f = [f.name] := by
      have hb : ((String.mk f.name.data) != "") = true := by
        rw [show String.mk f.name.data = f.name from rfl]
        simp [h4]
      simp only [canonicalParts, hn, splitOnChar_no_sep '/' f.name.data h3,
        List.map_cons, List.map_nil, List.filter_cons, hb, if_pos, List.filter_nil]
    refine ⟨hcp, ?_⟩
    have hstep : insertFile (.obj []) (canonicalParts f) (normalizeFileRef f) =
        .ok (.obj [("files", .arr [normalizeFileRef f] [])]) := by
      rw [hcp]
      rfl
    simp [buildTree, List.foldlM_cons, hstep]
  · intro h0
    have hstep : insertFile (.obj []) (canonicalParts f) (normalizeFileRef f) =
        .ok (.obj []) := by
      rw [h0]
      rfl
    simp [buildTree, List.foldlM_cons, hstep]

/-- C5 witness: the amended statement at a hint-less file and at the
separators-only file. -/
theorem c5_witness :
    canonicalParts ⟨"z.py", "", ""⟩ = ["z.py"] ∧
    buildTree [⟨"z.py", "", ""⟩] =
      .ok (.obj [("files", .arr [⟨"z.py", "", "z.py"⟩] [])]) ∧
    buildTree [sepOnlyRef] = .ok (.obj []) := by
  have h1 := (c5_canonical_segments ⟨"z.py", "", ""⟩).1 rfl rfl (by decide) (by decide)
  have h2 := (c5_canonical_segments sepOnlyRef).2 (by decide)
  exact ⟨h1.1, h1.2, h2⟩

/-! ## Claim C10: totality on parseable notebooks

The typed `Notebook`/`Cell` model above covers well-formed cells; the
totality claim quantifies over every successfully parsed JSON value, so the
renderers are re-embedded here over a dynamic value type `JsonV` with the
`TypeError`s of the source made explicit: reading a property of `null`,
calling `forEach` on a truthy non-array, iterating a non-iterable value,
and calling `replace`/`trim`/`includes` on a truthy non-string. -/

/-- A value `JSON.parse` can produce.  JSON numbers are modelled as
integers; the renderers never compute with them, only stringify them. -/
inductive JsonV where
  | str : String → JsonV
  | num : Int → JsonV
  | bool : Bool → JsonV
  | null : JsonV
  | arr : List JsonV → JsonV
  | obj : List (String × JsonV) → JsonV

/-- First-match field lookup in a parsed JSON object. -/
def getJField : List (String × JsonV) → String → Option JsonV
  | [], _ => none
  | (k, v) :: rest, key => if k = key then some v else getJField rest key

/-- Property access `v[k]`: throws on `null`, yields the field of an
object, and `undefined` (here `none`) on any other value. -/
def jsProp (v : JsonV) (k : String) : Except String (Option JsonV) :=
  match v with
  | .null => .error "TypeError: Cannot read properties of null"
  | .obj fs => .ok (getJField fs k)
  | _ => .ok none

/-- JavaScript truthiness of a possibly-undefined parsed value. -/
def truthyJson : Option JsonV → Bool
  | none => false
  | some .null => false
  | some (.str s) => decide (s ≠ "")
  | some (.num n) => decide (n ≠ 0)
  | some (.bool b) => b
  | some (.arr _) => true
  | some (.obj _) => true

mutual
/-- `String(v)` / template interpolation of a parsed value. -/
def jsToStr : JsonV → String
  | .str s => s
  | .num n => toString n
  | .bool b => if b then "true" else "false"
  | .null => "null"
  | .arr es => jsJoinStr "," es
  | .obj _ => "[object Object]"
/-- `Array.prototype.join(sep)`: stringify each element, with `null`
becoming the empty string. -/
def jsJoinStr (sep : String) : List JsonV → String
  | [] => ""
  | [e] =>
    match e with
    | .null => ""
    | v => jsToStr v
  | e :: rest =>
    (match e with
      | .null => ""
      | v => jsToStr v) ++ sep ++ jsJoinStr sep rest
end

/-- `(v || []).forEach(...)`: a falsy value defaults to the empty list, an
array yields its elements, and any other truthy value has no `forEach`. -/
def jsForEachList (v : Option JsonV) (err : String) : Except String (List JsonV) :=
  if truthyJson v then
    match v with
    | some (.arr es) => .ok es
    | _ => .error err
  else .ok []

/-- `for (const c of (v || []))`: like `forEach`, but strings are iterable
and yield their characters as one-character strings. -/
def jsForOfList (v : Option JsonV) (err : String) : Except String (List JsonV) :=
  if truthyJson v then
    match v with
    | some (.arr es) => .ok es
    | some (.str s) => .ok (s.data.map (fun ch => .str (String.singleton ch)))
    | _ => .error err
  else .ok []

/-- `Array.isArray(src) ? src.join('') : src`: an array source collapses to
the joined string, any other value passes through unchanged. -/
def jsSourceVal : Option JsonV → Option JsonV
  | some (.arr es) => some (.str (jsJoinStr "" es))
  | other => other

/-- `renderMarkdown(text)` on a dynamic argument: a falsy value returns the
empty string, a string goes through the markdown converter, and any other
truthy value throws when `text.replace` is called. -/
def renderMarkdownJson (t : Option JsonV) : Except String String :=
  if truthyJson t then
    match t with
    | some (.str s) => .ok (renderMarkdown s)
    | _ => .error "TypeError: text.replace is not a function"
  else .ok ""

/-- `escapeHtml(src)` after `src = ... || ''`: a falsy value escapes as the
empty string, a string is escaped, and any other truthy value throws when
`s.replace` is called. -/
def escapeHtmlJson (v : Option JsonV) : Except String String :=
  if truthyJson v then
    match v with
    | some (.str s) => .ok (escapeHtml s)
    | _ => .error "TypeError: s.replace is not a function"
  else .ok ""

/-- `escapeHtml(src.trim())` in the preview: as `escapeHtmlJson`, but a
truthy non-string throws already at `src.trim`. -/
def escapeHtmlTrimJson (v : Option JsonV) : Except String String :=
  if truthyJson v then
    match v with
    | some (.str s) => .ok (escapeHtml s.trim)
    | _ => .error "TypeError: src.trim is not a function"
  else .ok ""

/-- The figure-placeholder suppression applied to a `text/plain` string. -/
def renderTextPlainStr (s : String) : String :=
  if includesS s "<Figure size" || includesS s "Figure(" then "" else preOut s

/-- The trailing `stream` branch of the dynamic output renderer; the text
must stringify through `escapeHtml`, so a truthy non-string throws. -/
def streamPartJson (o : JsonV) : Except String String := do
  let ot ← jsProp o "output_type"
  let tx ← jsProp o "text"
  match ot with
  | some (.str s) =>
    if s = "stream" ∧ truthyJson tx then
      match tx with
      | some (.arr es) => .ok (preOut (jsJoinStr "" es))
      | some (.str t) => .ok (preOut t)
      | _ => .error "TypeError: s.replace is not a function"
    else .ok ""
  | _ => .ok ""

/-- Render one output of a code cell over dynamic values: the image
precedence chain, then truthy `text/plain` (where `text.includes` throws on
a truthy non-string payload), then the stream branch. -/
def renderOutputJson (o : JsonV) : Except String String := do
  let dt ← jsProp o "data"
  match dt with
  | some d =>
    if truthyJson (some d) then do
      let png ← jsProp d "image/png"
      if truthyJson png then
        pure (imgTag "image/png" (jsToStr (png.getD .null)))
      else do
        let jpg ← jsProp d "image/jpeg"
        if truthyJson jpg then
          pure (imgTag "image/jpeg" (jsToStr (jpg.getD .null)))
        else do
          let svg ← jsProp d "image/svg+xml"
          if truthyJson svg then
            pure (imgTag "image/svg+xml" (jsToStr (svg.getD .null)))
          else do
            let tp ← jsProp d "text/plain"
            if truthyJson tp then
              match tp with
              | some (.arr es) => .ok (renderTextPlainStr (jsJoinStr "" es))
              | some (.str s) => .ok (renderTextPlainStr s)
              | _ => .error "TypeError: text.includes is not a function"
            else streamPartJson o
    else streamPartJson o
  | none => streamPartJson o

/-- Render one cell for the full view over dynamic values.  The
`${c.cell_type}` interpolation reads `cell_type` first, so a `null` cell
throws here; a non-string `cell_type` fails both strict comparisons and the
cell body is empty. -/
def renderCellJson (c : JsonV) : Except String String := do
  let ctOpt ← jsProp c "cell_type"
  let ctStr := match ctOpt with | none => "undefined" | some v => jsToStr v
  let body ←
    match ctOpt with
    | some (.str ct) =>
      if ct = "markdown" then do
        let src ← jsProp c "source"
        renderMarkdownJson (jsSourceVal src)
      else if ct = "code" then do
        let src ← jsProp c "source"
        let codeHtml ← escapeHtmlJson (jsSourceVal src)
        let outsOpt ← jsProp c "outputs"
        let outs ← jsForEachList outsOpt "TypeError: outputs.forEach is not a function"
        let rendered ← outs.mapM renderOutputJson
        pure ("<pre><code class=\"language-python\">" ++ codeHtml ++ "</code></pre>"
          ++ joinStrings rendered)
      else pure ""
    | _ => pure ""
  pure ("<div class=\"viewer-cell " ++ ctStr ++ "\">" ++ body ++ "</div>")

/-- `renderFullNotebook(nb)` over a parsed JSON value. -/
def renderFullNotebookJson (nb : JsonV) : Except String String := do
  let cellsOpt ← jsProp nb "cells"
  let cells ← jsForEachList cellsOpt "TypeError: cells.forEach is not a function"
  let rendered ← cells.mapM renderCellJson
  pure (joinStrings rendered)

/-- The preview loop over dynamic cells: the budget check precedes the
`cell_type` access, markdown and code cells render and count, and any other
cell (including one whose `cell_type` is not a string) is skipped. -/
def previewLoopJson : List JsonV → Nat → Except String String
  | [], _ => .ok ""
  | c :: rest, shown =>
    if shown ≥ NOTEBOOK_PREVIEW_CELLS then .ok ""
    else do
      let ctOpt ← jsProp c "cell_type"
      match ctOpt with
      | some (.str ct) =>
        if ct = "markdown" then do
          let src ← jsProp c "source"
          let md ← renderMarkdownJson (jsSourceVal src)
          let restHtml ← previewLoopJson rest (shown + 1)
          pure (md ++ restHtml)
        else if ct = "code" then do
          let src ← jsProp c "source"
          let codeHtml ← escapeHtmlTrimJson (jsSourceVal src)
          let restHtml ← previewLoopJson rest (shown + 1)
          pure ("<pre><code class=\"language-python\">" ++ codeHtml ++ "</code></pre>"
            ++ restHtml)
        else previewLoopJson rest shown
      | _ => previewLoopJson rest shown

/-- `renderNotebookPreview(nb)` over a parsed JSON value (the preview uses
`for...of`, so a string `cells` value iterates its characters). -/
def renderNotebookPreviewJson (nb : JsonV) : Except String String := do
  let cellsOpt ← jsProp nb "cells"
  let cells ← jsForOfList cellsOpt "TypeError: cells is not iterable"
  previewLoopJson cells 0

/-- C10 counterexample: the structurally incomplete but parseable notebook
`{"cells":[null]}` makes both full rendering and preview rendering read
`cell_type` off a `null` cell and throw a TypeError, so rendering is not
total on parseable notebooks. -/
theorem c10_counterexample :
    renderFullNotebookJson (.obj [("cells", .arr [.null])]) =
      .error "TypeError: Cannot read properties of null" ∧
    renderNotebookPreviewJson (.obj [("cells", .arr [.null])]) =
      .error "TypeError: Cannot read properties of null" := by
  exact ⟨rfl, rfl⟩

/-- C10 (amended): the three guarded defaults hold - a notebook object with
no `cells` field renders as empty output in both renderers, a code cell
with no `outputs` field renders exactly like one with an empty outputs
list, and a missing or null `source` of a markdown or code cell renders
exactly like an empty source text - but rendering is not total on every
parseable notebook: ill-typed fields such as a `null` cells entry throw
(see the counterexample). -/
theorem c10_incomplete_defaults :
    (renderFullNotebookJson (.obj []) = .ok "" ∧
      renderNotebookPreviewJson (.obj []) = .ok "") ∧
    (∀ s : String,
      renderCellJson (.obj [("cell_type", .str "code"), ("source", .str s)]) =
        renderCellJson (.obj [("cell_type", .str "code"), ("source", .str s),
          ("outputs", .arr [])])) ∧
    (renderCellJson (.obj [("cell_type", .str "markdown")]) =
        renderCellJson (.obj [("cell_type", .str "markdown"), ("source", .null)]) ∧
      renderCellJson (.obj [("cell_type", .str "markdown"), ("source", .null)]) =
        renderCellJson (.obj [("cell_type", .str "markdown"), ("source", .str "")]) ∧
      renderCellJson (.obj [("cell_type", .str "code")]) =
        renderCellJson (.obj [("cell_type", .str "code"), ("source", .null)]) ∧
      renderCellJson (.obj [("cell_type", .str "code"), ("source", .null)]) =
        renderCellJson (.obj [("cell_type", .str "code"), ("source", .str "")])) := by
  exact ⟨⟨rfl, rfl⟩, fun s => rfl, rfl, rfl, rfl, rfl⟩
